import Mathlib

/-!
Verification of the WorkDocStyler core (src/main.py) — a shallow embedding of
the Color Resolver (`_rgb`), Paragraph Styler (`_apply_paragraph_style`),
Line Classifier (`_detect_and_style_line`) and Document Builder (`format_doc`
loop with `_add_styled_paragraph`).

Strings are modelled as Lean `String`/`List Char`; Python character classes
(`\s`, `\d`, `[A-Za-z]`, `str.strip()`, `str.upper()`) are modelled over their
ASCII cores, which covers every character class decision the classifier and
resolver make on the inputs the claims are about.  Python exceptions are
modelled by `Option`: `none` means the call raises.
-/

namespace WorkDocStyler

/-- ASCII core of Python whitespace (`str.strip()` / regex `\s`):
space, tab, LF, CR, vertical tab, form feed. -/
def isPySpace (c : Char) : Bool :=
  c == ' ' || c == '\t' || c == '\n' || c == '\r' || c == '\x0b' || c == '\x0c'

/-- The characters removed by `rstrip("\r\n")` in the line normalizer. -/
def isLineBreak (c : Char) : Bool :=
  c == '\r' || c == '\n'

/-- Python `s.rstrip("\r\n")` on the character list: remove the maximal
trailing run of CR/LF characters. -/
def rstripL (cs : List Char) : List Char :=
  cs.rdropWhile isLineBreak

/-- Strip one leading byte-order mark if present:
`if text.startswith("﻿"): text = text[1:]`. -/
def bomStripL : List Char → List Char
  | [] => []
  | c :: rest => if c == '﻿' then rest else c :: rest

/-- Line normalization of `_detect_and_style_line` (src/main.py lines 108-110):
`text = (line or "").rstrip("\r\n")`, then drop a leading BOM.
(`line or ""` is the identity on strings.) -/
def normalizeL (cs : List Char) : List Char :=
  bomStripL (rstripL cs)

/-- String wrapper of the line normalizer. -/
def normalizeLine (line : String) : String :=
  ⟨normalizeL line.data⟩

/-- Python `str.strip()` (ASCII whitespace core): trim both ends. -/
def stripL (cs : List Char) : List Char :=
  (cs.dropWhile isPySpace).rdropWhile isPySpace

/-- Python `text.startswith(pre)`. -/
def pyStartsWith (s pre : String) : Bool :=
  pre.data.isPrefixOf s.data

/-! ## Color Resolver (`_rgb`, src/main.py lines 68-78) -/

/-- Value of a hexadecimal digit, as accepted by Python `int(_, 16)`. -/
def hexDigitVal (c : Char) : Option Nat :=
  if '0' ≤ c ∧ c ≤ '9' then some (c.toNat - '0'.toNat)
  else if 'a' ≤ c ∧ c ≤ 'f' then some (c.toNat - 'a'.toNat + 10)
  else if 'A' ≤ c ∧ c ≤ 'F' then some (c.toNat - 'A'.toNat + 10)
  else none

/-- Python `int(s, 16)` on a two-character slice (the slices `color_str[1:3]`,
`[3:5]`, `[5:7]` always have exactly two characters).  Python's `int` accepts
surrounding whitespace and a sign before a digit; `none` models the
`ValueError` that `int` raises otherwise. -/
def pyInt2Hex (c1 c2 : Char) : Option Int :=
  match hexDigitVal c1, hexDigitVal c2 with
  | some a, some b => some (16 * a + b)
  | some a, none => if isPySpace c2 then some a else none
  | none, some b =>
      if c1 == '+' || isPySpace c1 then some b
      else if c1 == '-' then some (-(b : Int))
      else none
  | none, none => none

/-- ASCII uppercase map (core of Python `str.upper()` for the `RGB(` test). -/
def asciiUpper (c : Char) : Char :=
  if 'a' ≤ c ∧ c ≤ 'z' then Char.ofNat (c.toNat - 32) else c

/-- Guard of the second `_rgb` branch: `color_str.upper().startswith("RGB(")`. -/
def rgbShape (s : String) : Bool :=
  "RGB(".data.isPrefixOf (s.data.map asciiUpper)

/-- Guard of the first `_rgb` branch:
`color_str.startswith("#") and len(color_str) == 7`. -/
def hashShape (s : String) : Bool :=
  pyStartsWith s "#" && s.data.length == 7

/-- Python `"...".split(",")` on a character list (splitting on `,`;
the empty string yields one empty part). -/
def splitComma : List Char → List (List Char)
  | [] => [[]]
  | c :: rest =>
    match splitComma rest with
    | [] => [[]]
    | g :: gs => if c == ',' then [] :: g :: gs else (c :: g) :: gs

/-- Digit-run tail of Python `int(_, 10)`: after the first digit, digits with
single interior underscores are accepted. -/
def pyDigitsGo (acc : Nat) : List Char → Option Nat
  | [] => some acc
  | c :: rest =>
    if c.isDigit then pyDigitsGo (10 * acc + (c.toNat - '0'.toNat)) rest
    else if c == '_' then
      match rest with
      | [] => none
      | d :: rest' =>
        if d.isDigit then pyDigitsGo (10 * acc + (d.toNat - '0'.toNat)) rest'
        else none
    else none

/-- Nonempty decimal digit sequence (with Python's underscore rule). -/
def pyDigits : List Char → Option Nat
  | [] => none
  | c :: rest => if c.isDigit then pyDigitsGo (c.toNat - '0'.toNat) rest else none

/-- Python `int(x.strip())` for the `RGB(r,g,b)` components: strip whitespace,
optional sign, nonempty digit sequence; `none` models `ValueError`. -/
def pyInt10 (cs : List Char) : Option Int :=
  match stripL cs with
  | '+' :: rest => (pyDigits rest).map Int.ofNat
  | '-' :: rest => (pyDigits rest).map (fun n => -(n : Int))
  | t => (pyDigits t).map Int.ofNat

/-- `docx.RGBColor(r, g, b)`: accepts integers 0-255, raises `ValueError`
otherwise. -/
def mkRGBColor (r g b : Int) : Option (Int × Int × Int) :=
  if 0 ≤ r ∧ r ≤ 255 ∧ 0 ≤ g ∧ g ≤ 255 ∧ 0 ≤ b ∧ b ≤ 255 then some (r, g, b)
  else none

/-- The Color Resolver `_rgb` (src/main.py lines 68-78).  `none` models an
uncaught exception.  The `#RRGGBB` branch parses hex pairs and builds the
`RGBColor` outside any `try`, so a parse or range failure there raises; the
`RGB(...)` branch wraps parsing and construction in `try/except` and falls
through to black on failure; everything else is black. -/
def rgb (s : String) : Option (Int × Int × Int) :=
  if hashShape s then
    match s.data with
    | _ :: c1 :: c2 :: c3 :: c4 :: c5 :: c6 :: _ =>
      match pyInt2Hex c1 c2, pyInt2Hex c3 c4, pyInt2Hex c5 c6 with
      | some r, some g, some b => mkRGBColor r g b
      | _, _, _ => none
    | _ => none
  else if rgbShape s then
    match splitComma ((s.data.drop 4).dropLast) with
    | [x, y, z] =>
      match pyInt10 x, pyInt10 y, pyInt10 z with
      | some r, some g, some b =>
        match mkRGBColor r g b with
        | some t => some t
        | none => some (0, 0, 0)
      | _, _, _ => some (0, 0, 0)
    | _ => some (0, 0, 0)
  else some (0, 0, 0)

/-! ## Style rule table and paragraph data model -/

/-- One style-attribute record (a JSON object in the Python rule table).
Absent keys are `none`.  The fields from `based_on` down are carried by the
default table but never read by the Paragraph Styler; together with
`extraKeys` (arbitrary unrecognized keys) they model the
"unknown attribute keys are ignored" schema. -/
structure StyleSpec where
  font_name : Option String := none
  font_size_pt : Option ℚ := none
  bold : Option Bool := none
  italic : Option Bool := none
  color : Option String := none
  alignment : Option String := none
  line_spacing : Option ℚ := none
  spacing_before_pt : Option ℚ := none
  spacing_after_pt : Option ℚ := none
  indent_left_cm : Option ℚ := none
  indent_hanging_cm : Option ℚ := none
  keep_with_next : Option Bool := none
  keep_lines_together : Option Bool := none
  based_on : Option (Option String) := none
  following_style : Option String := none
  numbering_level : Option Nat := none
  numbering_pattern : Option String := none
  bullet_level : Option Nat := none
  bullet_alignment_cm : Option ℚ := none
  widow_orphan_control : Option Bool := none
  spacing_same_paragraphs : Option Bool := none
  extraKeys : List (String × String) := []
  deriving Repr, DecidableEq

/-- The rule table: a mapping from style name to record (Python dict,
association list in insertion order). -/
abbrev RuleTable := List (String × StyleSpec)

/-- Python `style_name in rules`. -/
def hasKey (rules : RuleTable) (k : String) : Bool :=
  rules.any (fun kv => kv.1 == k)

/-- Python `rules.get(style_name, {})`. -/
def lookupRule : RuleTable → String → StyleSpec
  | [], _ => {}
  | (k, v) :: rest, s => if k == s then v else lookupRule rest s

/-! ## Line Classifier (`_detect_and_style_line`, src/main.py lines 106-141) -/

/-- The ordered heading-marker table of `_detect_and_style_line`. -/
def headingMarkers : List (String × List String) :=
  [("Heading 1", ["H1:", "# "]),
   ("Heading 2", ["H2:", "## "]),
   ("Heading 3", ["H3:", "### "]),
   ("Heading 4", ["H4:", "#### "])]

/-- The nested heading loop: for each style in order, for each marker in
order, on the first `text.startswith(pref)` return the style together with
`text[len(pref):].strip()`. -/
def firstHit (t : String) : List (String × List String) → Option (String × String)
  | [] => none
  | (st, ps) :: rest =>
    match ps.find? (fun p => pyStartsWith t p) with
    | some p => some (st, ⟨stripL (t.data.drop p.data.length)⟩)
    | none => firstHit t rest

/-- Length of the match of `^(\d+[\.\)]\s|[A-Za-z][\.\)]\s)` at the start of
the text, if any (`re.match`): either a maximal nonempty digit run, then
`.` or `)`, then one whitespace character; or a single ASCII letter, then
`.` or `)`, then one whitespace character.  `re.sub` of the same anchored
pattern removes exactly this span. -/
def numberedLen (cs : List Char) : Option Nat :=
  let ds := cs.takeWhile Char.isDigit
  if 0 < ds.length then
    match cs.drop ds.length with
    | p :: w :: _ =>
      if (p == '.' || p == ')') && isPySpace w then some (ds.length + 2) else none
    | _ => none
  else
    match cs with
    | a :: p :: w :: _ =>
      if a.isAlpha && ((p == '.' || p == ')') && isPySpace w) then some 3 else none
    | _ => none

/-- Bullet guard: `any(text.startswith(m) for m in ["- ", "* ", "• "])`. -/
def bulletHit (t : String) : Bool :=
  ["- ", "* ", "• "].any (fun m => pyStartsWith t m)

/-- Bullet style selection:
`"Normal Bullet" if "Normal Bullet" in rules else "List Paragraph Bullet Points"`. -/
def bulletStyleName (rules : RuleTable) : String :=
  if hasKey rules "Normal Bullet" then "Normal Bullet"
  else "List Paragraph Bullet Points"

/-- The classification decision of `_detect_and_style_line` on the normalized
text: headings, then numbered lists, then bullets, then the `Normal`
default.  Returns the (style name, cleaned text) pair passed to
`_add_styled_paragraph`. -/
def classifyCore (rules : RuleTable) (t : String) : String × String :=
  match firstHit t headingMarkers with
  | some r => r
  | none =>
    match numberedLen t.data with
    | some n => ("Normal", ⟨stripL (t.data.drop n)⟩)
    | none =>
      if bulletHit t then
        (bulletStyleName rules,
         if 2 ≤ t.data.length then ⟨stripL (t.data.drop 2)⟩ else "")
      else ("Normal", t)

/-- Full classification of a raw line: normalize, then classify. -/
def classifyLine (rules : RuleTable) (line : String) : String × String :=
  classifyCore rules (normalizeLine line)

/-! ### The spec's ordered rule chain (§4.3/§9 of the spec), for claim C1:
an explicit list of (predicate, transform, style) tuples evaluated in
sequence, first match wins, with the `Normal`/identity default. -/

/-- One classification rule of the spec's ordered chain. -/
structure ChainRule where
  test : String → Bool
  cleanFn : String → String
  styleFn : RuleTable → String

/-- A heading rule of the chain: one (style, marker) pair. -/
def headingRule (st : String) (m : String) : ChainRule where
  test := fun t => pyStartsWith t m
  cleanFn := fun t => ⟨stripL (t.data.drop m.data.length)⟩
  styleFn := fun _ => st

/-- The numbered-list rule of the chain. -/
def numberedRule : ChainRule where
  test := fun t => (numberedLen t.data).isSome
  cleanFn := fun t => ⟨stripL (t.data.drop ((numberedLen t.data).getD 0))⟩
  styleFn := fun _ => "Normal"

/-- The bullet rule of the chain. -/
def bulletRule : ChainRule where
  test := bulletHit
  cleanFn := fun t => if 2 ≤ t.data.length then ⟨stripL (t.data.drop 2)⟩ else ""
  styleFn := bulletStyleName

/-- The spec's rule chain, in the load-bearing order: Heading 1 through
Heading 4 (tag marker before hash marker), then numbered lists, then
bullets. -/
def specChain : List ChainRule :=
  [headingRule "Heading 1" "H1:", headingRule "Heading 1" "# ",
   headingRule "Heading 2" "H2:", headingRule "Heading 2" "## ",
   headingRule "Heading 3" "H3:", headingRule "Heading 3" "### ",
   headingRule "Heading 4" "H4:", headingRule "Heading 4" "#### ",
   numberedRule, bulletRule]

/-- First-match-wins evaluation of a rule chain, with the spec's default
branch: style `"Normal"`, text unchanged. -/
def runChain (rules : RuleTable) (t : String) : List ChainRule → String × String
  | [] => ("Normal", t)
  | r :: rest => if r.test t then (r.styleFn rules, r.cleanFn t) else runChain rules t rest

/-- Spec-side classification: normalize, then evaluate the ordered chain. -/
def specClassify (rules : RuleTable) (line : String) : String × String :=
  runChain rules (normalizeLine line) specChain

/-! ## Paragraph Styler (`_apply_paragraph_style`, src/main.py lines 80-99) -/

/-- The docx paragraph alignment enum values used by `align_map`. -/
inductive Align where
  | left | center | right | justify
  deriving Repr, DecidableEq

/-- `align_map`: the fixed four-way mapping from alignment strings to the
docx enum; anything else is absent. -/
def alignMap : String → Option Align
  | "Left" => some .left
  | "Center" => some .center
  | "Right" => some .right
  | "Justify" => some .justify
  | _ => none

/-- `docx.shared.Pt`: points to EMU. -/
def Pt (x : ℚ) : ℚ := 12700 * x

/-- `docx.shared.Cm`: centimetres to EMU. -/
def Cm (x : ℚ) : ℚ := 360000 * x

/-- One text run and its font attributes (`run.font`); `none` means the
attribute was never set and is inherited. -/
structure Run where
  text : String
  font_name : Option String := none
  font_size : Option ℚ := none
  bold : Option Bool := none
  italic : Option Bool := none
  color : Option (Int × Int × Int) := none
  deriving Repr, DecidableEq

/-- One output paragraph and its paragraph-format attributes; `none` means
the attribute was never set and is inherited. -/
structure Paragraph where
  text : String
  alignment : Option Align := none
  line_spacing : Option ℚ := none
  space_before : Option ℚ := none
  space_after : Option ℚ := none
  left_indent : Option ℚ := none
  first_line_indent : Option ℚ := none
  keep_with_next : Option Bool := none
  keep_together : Option Bool := none
  runs : List Run := []
  deriving Repr, DecidableEq

/-- `doc.add_paragraph(text)`: a fresh paragraph holding one run with the
text when the text is nonempty, and no runs for empty text. -/
def newParagraph (text : String) : Paragraph :=
  { text := text, runs := if text == "" then [] else [{ text := text }] }

/-- `p.runs or [p.add_run("")]`: the run list, with one empty run created
when the paragraph has none. -/
def runsOrNew (p : Paragraph) : List Run :=
  if p.runs.isEmpty then [{ text := "" }] else p.runs

/-- The run updated by the run loop of `_apply_paragraph_style`, given the
already-resolved color (each font attribute is set only when the
corresponding key is present in the record). -/
def styledRun (spec : StyleSpec) (r : Run) (col : Option (Int × Int × Int)) : Run where
  text := r.text
  font_name := match spec.font_name with | some v => some v | none => r.font_name
  font_size := match spec.font_size_pt with | some v => some (Pt v) | none => r.font_size
  bold := match spec.bold with | some v => some v | none => r.bold
  italic := match spec.italic with | some v => some v | none => r.italic
  color := match col with | some t => some t | none => r.color

/-- One iteration of the run loop; `none` models the exception propagating
out of `_rgb(spec["color"])`. -/
def applyRunStyle (spec : StyleSpec) (r : Run) : Option Run :=
  match spec.color with
  | none => some (styledRun spec r none)
  | some c => (rgb c).map (fun t => styledRun spec r (some t))

/-- The paragraph-format part of `_apply_paragraph_style`: each attribute is
set only when the corresponding key is present (and, for alignment, maps
through `align_map`); the hanging indent is stored as `-Cm(value)`;
`keep_with_next` / `keep_lines_together` are set to `True` only when the
record value is truthy.  `rs` is the final run list. -/
def styledPara (spec : StyleSpec) (p : Paragraph) (rs : List Run) : Paragraph where
  text := p.text
  alignment :=
    match spec.alignment with
    | some a => match alignMap a with | some w => some w | none => p.alignment
    | none => p.alignment
  line_spacing := match spec.line_spacing with | some v => some v | none => p.line_spacing
  space_before := match spec.spacing_before_pt with | some v => some (Pt v) | none => p.space_before
  space_after := match spec.spacing_after_pt with | some v => some (Pt v) | none => p.space_after
  left_indent := match spec.indent_left_cm with | some v => some (Cm v) | none => p.left_indent
  first_line_indent :=
    match spec.indent_hanging_cm with | some v => some (-(Cm v)) | none => p.first_line_indent
  keep_with_next :=
    match spec.keep_with_next with | some true => some true | _ => p.keep_with_next
  keep_together :=
    match spec.keep_lines_together with | some true => some true | _ => p.keep_together
  runs := rs

/-- `_apply_paragraph_style(p, spec)`: paragraph attributes, then every run
(creating one empty run if there are none) gets the font attributes.
`none` models the exception raised by `_rgb` on an unparsable `#` color. -/
def applyParagraphStyle (p : Paragraph) (spec : StyleSpec) : Option Paragraph :=
  ((runsOrNew p).mapM (applyRunStyle spec)).map (styledPara spec p)

/-- A record's color, if present, resolves without raising.  This is the
condition under which the styler and builder are exception-free. -/
def specColorOk (spec : StyleSpec) : Bool :=
  match spec.color with
  | none => true
  | some c => (rgb c).isSome

/-- Every record of the table satisfies `specColorOk`. -/
def rulesOk (rules : RuleTable) : Bool :=
  rules.all (fun kv => specColorOk kv.2)

/-- `spec` with every field the Paragraph Styler never reads cleared: the
pass-through metadata keys and the arbitrary unrecognized keys. -/
def eraseMeta (spec : StyleSpec) : StyleSpec :=
  { spec with
    based_on := none, following_style := none, numbering_level := none,
    numbering_pattern := none, bullet_level := none, bullet_alignment_cm := none,
    widow_orphan_control := none, spacing_same_paragraphs := none, extraKeys := [] }

/-! ## Document Builder (`_add_styled_paragraph` and the `format_doc` loop,
src/main.py lines 101-104 and 169-171) -/

/-- Usage counters: a Python dict from style name to count, in insertion
order. -/
abbrev Counters := List (String × Nat)

/-- `counters.get(style_name, 0)`. -/
def counterGet : Counters → String → Nat
  | [], _ => 0
  | (k, v) :: rest, s => if k == s then v else counterGet rest s

/-- `counters[style_name] = counters.get(style_name, 0) + 1`: increment in
place, appending a fresh key at the end. -/
def counterInc : Counters → String → Counters
  | [], k => [(k, 1)]
  | (k', v) :: rest, k =>
    if k' == k then (k', v + 1) :: rest else (k', v) :: counterInc rest k

/-- Sum of all counter values. -/
def countersTotal (cs : Counters) : Nat :=
  (cs.map Prod.snd).sum

/-- Classify one raw line and produce its styled output paragraph
(classification, `doc.add_paragraph(clean)`, then
`_apply_paragraph_style(p, rules.get(style_name, {}))`). -/
def styleLinePara (rules : RuleTable) (line : String) : Option Paragraph :=
  applyParagraphStyle (newParagraph (classifyLine rules line).2)
    (lookupRule rules (classifyLine rules line).1)

/-- One iteration of the `format_doc` loop
(`_detect_and_style_line(out_doc, line, rules, counters)`): append the styled
paragraph and increment the counter of the resolved style name.  `none`
models an exception aborting the request. -/
def stepLine (rules : RuleTable) (st : List Paragraph × Counters) (line : String) :
    Option (List Paragraph × Counters) :=
  match styleLinePara rules line with
  | some p => some (st.1 ++ [p], counterInc st.2 (classifyLine rules line).1)
  | none => none

/-- The `format_doc` loop over the remaining lines, from a given document
and counter state. -/
def buildLoop (rules : RuleTable) (st : List Paragraph × Counters) :
    List String → Option (List Paragraph × Counters)
  | [] => some st
  | l :: ls =>
    match stepLine rules st l with
    | some st' => buildLoop rules st' ls
    | none => none

/-- The Document Builder: an empty document and empty counters, then the
loop over all input lines in order. -/
def buildDoc (rules : RuleTable) (lines : List String) :
    Option (List Paragraph × Counters) :=
  buildLoop rules ([], []) lines

/-! ## The built-in default rule table (`DEFAULT_STYLE_MAP`,
src/main.py lines 13-66) -/

/-- The embedded default style map. -/
def defaultStyleMap : RuleTable :=
  [("Heading 1",
    { font_name := some "Century Gothic", font_size_pt := some 14,
      bold := some true, italic := some false, color := some "#0052A3",
      alignment := some "Left", line_spacing := some 1.15,
      spacing_before_pt := some 12, spacing_after_pt := some 6,
      keep_with_next := some true, keep_lines_together := some true,
      indent_left_cm := some 0, indent_hanging_cm := some 1,
      numbering_level := some 1, numbering_pattern := some "%1",
      based_on := some (some "Normal"), following_style := some "Normal" }),
   ("Heading 2",
    { font_name := some "Century Gothic", font_size_pt := some 12,
      bold := some true, italic := some false, color := some "#0052A3",
      alignment := some "Left", line_spacing := some 1.15,
      spacing_before_pt := some 12, spacing_after_pt := some 6,
      keep_with_next := some true, keep_lines_together := some true,
      indent_left_cm := some 0, indent_hanging_cm := some 1.02,
      numbering_level := some 2, numbering_pattern := some "%1.%2",
      based_on := some (some "Normal"), following_style := some "Normal" }),
   ("Heading 3",
    { font_name := some "Century Gothic", font_size_pt := some 11,
      bold := some true, italic := some false, color := some "#0052A3",
      alignment := some "Left", line_spacing := some 1.15,
      spacing_before_pt := some 8, spacing_after_pt := some 6,
      keep_with_next := some true, keep_lines_together := some true,
      indent_left_cm := some 0, indent_hanging_cm := some 1.27,
      numbering_level := some 3, numbering_pattern := some "%1.%2.%3",
      based_on := some (some "Normal"), following_style := some "Normal" }),
   ("Heading 4",
    { font_name := some "Century Gothic", font_size_pt := some 9,
      bold := some false, italic := some false, color := some "RGB(1,95,95)",
      alignment := some "Left", line_spacing := some 1.5,
      spacing_before_pt := some 8, spacing_after_pt := some 6,
      keep_with_next := some true, keep_lines_together := some true,
      indent_left_cm := some 0, indent_hanging_cm := some 1.52,
      numbering_level := some 4, numbering_pattern := some "%1.%2.%3.%4",
      based_on := some (some "Normal"), following_style := some "Normal" }),
   ("Normal",
    { font_name := some "Century Gothic", font_size_pt := some 10,
      bold := some false, italic := some false, color := some "Text 1",
      alignment := some "Left", line_spacing := some 1.0,
      spacing_before_pt := some 0, spacing_after_pt := some 6,
      widow_orphan_control := some true,
      based_on := some none, following_style := some "Normal" }),
   ("List Paragraph Bullet Points",
    { font_name := some "Century Gothic", font_size_pt := some 10.5,
      bold := some false, italic := some false, color := some "Text 1",
      alignment := some "Left", line_spacing := some 1.0,
      spacing_before_pt := some 0, spacing_after_pt := some 0,
      indent_left_cm := some 1.27, spacing_same_paragraphs := some false,
      based_on := some (some "Normal"),
      following_style := some "List Paragraph Bullet Points" }),
   ("Normal Bullet",
    { font_name := some "Century Gothic", font_size_pt := some 10,
      bold := some false, italic := some false, color := some "Text 1",
      alignment := some "Left", line_spacing := some 1.08,
      spacing_before_pt := some 8, spacing_after_pt := some 8,
      indent_hanging_cm := some 0.63, indent_left_cm := some 1.27,
      bullet_level := some 1, bullet_alignment_cm := some 0.63,
      based_on := some (some "List Paragraph Bullet Point"),
      following_style := some "Normal Bullet" })]

/-! ## Claim-side predicates (stated from the spec's words, for comparison
with the code-derived definitions above) -/

/-- The claim's numbered-list pattern with a literal space, following the
spec's `^\d+[.)] ` / `^[A-Za-z][.)] `: one-or-more digits (maximal run),
then `.` or `)`, then a space; or a single letter, then `.` or `)`, then a
space.  Returns the matched length. -/
def claimNumberedSpace (cs : List Char) : Option Nat :=
  let ds := cs.takeWhile Char.isDigit
  if 0 < ds.length then
    match cs.drop ds.length with
    | p :: w :: _ =>
      if (p == '.' || p == ')') && w == ' ' then some (ds.length + 2) else none
    | _ => none
  else
    match cs with
    | a :: p :: w :: _ =>
      if a.isAlpha && ((p == '.' || p == ')') && w == ' ') then some 3 else none
    | _ => none

/-- The spec's "6-hex-digit form prefixed by a marker character": `#` then
exactly six hexadecimal digits. -/
def specHexForm (s : String) : Bool :=
  pyStartsWith s "#" && s.data.length == 7 &&
    (s.data.drop 1).all (fun c => (hexDigitVal c).isSome)

/-- A decimal-integer token (optional sign, nonempty digit run). -/
def decIntToken (cs : List Char) : Bool :=
  match cs with
  | '+' :: rest => !rest.isEmpty && rest.all Char.isDigit
  | '-' :: rest => !rest.isEmpty && rest.all Char.isDigit
  | _ => !cs.isEmpty && cs.all Char.isDigit

/-- The spec's "explicit-components form `RGB(r,g,b)` with three decimal
integers". -/
def specRGBForm (s : String) : Bool :=
  pyStartsWith s "RGB(" &&
    (match s.data.getLast? with | some ')' => true | _ => false) &&
    ((splitComma ((s.data.drop 4).dropLast)).length == 3 &&
     (splitComma ((s.data.drop 4).dropLast)).all decIntToken)

/-- The flattened (style, marker) pairs of the heading table, in test
order. -/
def headingPairs : List (String × String) :=
  [("Heading 1", "H1:"), ("Heading 1", "# "),
   ("Heading 2", "H2:"), ("Heading 2", "## "),
   ("Heading 3", "H3:"), ("Heading 3", "### "),
   ("Heading 4", "H4:"), ("Heading 4", "#### ")]

/-- A concrete record used to instantiate the Paragraph Styler theorems. -/
def sampleSpec : StyleSpec :=
  { line_spacing := some 2, indent_hanging_cm := some 1,
    keep_with_next := some true, bold := some true,
    color := some "#0052A3", based_on := some (some "X") }

/-! # Theorems -/

/-- C2: the claim says the Color Resolver is total — it returns an RGB triple
for every input, including a 7-character `#`-prefixed string whose six
remaining characters are not hex digits.  The code contradicts this: in the
`#RRGGBB` branch `int(color_str[1:3], 16)` is evaluated outside any
`try/except`, so `_rgb("#GGGGGG")` raises `ValueError` (`none` in the
embedding) instead of returning a triple. -/
theorem rgb_raises_on_malformed_hex : rgb "#GGGGGG" = none := by decide

/-- C8 counterexample: `"#XXYYZZ"` matches neither the spec's 6-hex-digit
`#` form nor its well-formed `RGB(r,g,b)` form, yet the code does not
resolve it to black — it raises (`none`), refuting the claim's universal
fallback clause. -/
theorem rgb_fallback_counterexample :
    specHexForm "#XXYYZZ" = false ∧ specRGBForm "#XXYYZZ" = false ∧
      ¬ rgb "#XXYYZZ" = some (0, 0, 0) := by decide

/-- C8 (amended): the Color Resolver maps `"#0052A3"` to (0,82,163),
`"RGB(1,95,95)"` to (1,95,95), `"Text 1"` and `"RGB(bad)"` to black, and
every input that does not take the 7-character `#`-prefixed shape and does
not case-insensitively begin with `RGB(` resolves to the default black
(0,0,0); a 7-character `#` string with unparsable content raises instead. -/
theorem rgb_examples_and_fallback :
    rgb "#0052A3" = some (0, 82, 163) ∧
    rgb "RGB(1,95,95)" = some (1, 95, 95) ∧
    rgb "Text 1" = some (0, 0, 0) ∧
    rgb "RGB(bad)" = some (0, 0, 0) ∧
    (∀ s : String, hashShape s = false → rgbShape s = false →
      rgb s = some (0, 0, 0)) := by
  refine ⟨by decide, by decide, by decide, by decide, fun s h1 h2 => ?_⟩
  simp [rgb, h1, h2]

/-- C8 witness: the fallback clause of `rgb_examples_and_fallback` applied to
the concrete non-matching input `"Body"`. -/
theorem rgb_examples_and_fallback_witness :
    hashShape "Body" = false ∧ rgbShape "Body" = false ∧
      rgb "Body" = some (0, 0, 0) :=
  ⟨by decide, by decide,
   rgb_examples_and_fallback.2.2.2.2 "Body" (by decide) (by decide)⟩

/-- C7 counterexample: a line starting with two byte-order marks loses one
BOM per normalization, so normalizing twice differs from normalizing once. -/
theorem normalize_not_idempotent :
    ¬ normalizeLine (normalizeLine "﻿﻿A") =
        normalizeLine "﻿﻿A" := by decide

/-- The normalizer's CR/LF right-strip is a prefix of its input. -/
theorem rstripL_prefix (cs : List Char) : rstripL cs <+: cs :=
  List.rdropWhile_prefix _ _

/-- C7 (amended, list level): normalization is idempotent on every character
list that does not begin with two byte-order marks. -/
theorem normalizeL_idem (cs : List Char)
    (h : ¬ ['﻿', '﻿'] <+: cs) :
    normalizeL (normalizeL cs) = normalizeL cs := by
  unfold normalizeL
  rcases hds : rstripL cs with _ | ⟨c, rest⟩
  · simp [bomStripL, rstripL, List.rdropWhile_nil]
  · have hfix : rstripL (c :: rest) = c :: rest := by
      rw [← hds]
      exact List.rdropWhile_idempotent _ _
    by_cases hc : c = '﻿'
    · subst hc
      have hb : bomStripL ('﻿' :: rest) = rest := by simp [bomStripL]
      rw [hb]
      have hrest : rstripL rest = rest := by
        rcases rest with _ | ⟨d, rest2⟩
        · simp [rstripL, List.rdropWhile_nil]
        · have hlast := List.rdropWhile_eq_self_iff.mp hfix
          unfold rstripL
          rw [List.rdropWhile_eq_self_iff]
          intro hne
          have hgl := List.getLast_cons (a := '﻿') hne
          have := hlast (by simp)
          rw [hgl] at this
          exact this
      rw [hrest]
      rcases rest with _ | ⟨d, rest2⟩
      · simp [bomStripL]
      · have hd : ¬ d = '﻿' := by
          intro hdm
          subst hdm
          apply h
          have h1 : ['﻿', '﻿'] <+: ('﻿' :: '﻿' :: rest2) :=
            ⟨rest2, rfl⟩
          have h2 : rstripL cs <+: cs := rstripL_prefix cs
          rw [hds] at h2
          exact h1.trans h2
        simp [bomStripL, hd]
    · have hb : bomStripL (c :: rest) = c :: rest := by simp [bomStripL, hc]
      rw [hb, hfix, hb]

/-- C7 (amended): line normalization (strip trailing CR/LF, then one leading
BOM) is idempotent for every string that does not begin with two
byte-order marks; a string beginning with two BOMs instead loses exactly one
BOM per pass. -/
theorem normalize_idempotent_unless_double_bom (s : String)
    (h : pyStartsWith s "﻿﻿" = false) :
    normalizeLine (normalizeLine s) = normalizeLine s := by
  have h' : ¬ ['﻿', '﻿'] <+: s.data := by
    intro hp
    have : pyStartsWith s "﻿﻿" = true := by
      unfold pyStartsWith
      exact List.isPrefixOf_iff_prefix.mpr hp
    rw [this] at h
    simp at h
  exact congrArg String.mk (normalizeL_idem s.data h')

/-- C7 witness: idempotence at the concrete line `"abc\r\n"`. -/
theorem normalize_idempotent_witness :
    pyStartsWith "abc\r\n" "﻿﻿" = false ∧
      normalizeLine (normalizeLine "abc\r\n") = normalizeLine "abc\r\n" :=
  ⟨by decide, normalize_idempotent_unless_double_bom "abc\r\n" (by decide)⟩

/-! ## Classifier lemmas -/

/-- `pyStartsWith` agrees with list-prefix. -/
theorem pyStartsWith_iff (s pre : String) :
    pyStartsWith s pre = true ↔ pre.data <+: s.data := by
  unfold pyStartsWith
  exact List.isPrefixOf_iff_prefix

/-- Two markers neither of which is a prefix of the other cannot both match
the start of the same text. -/
theorem pyStartsWith_false_of_incomp (t p q : String)
    (hp : pyStartsWith t p = true)
    (h1 : p.data.isPrefixOf q.data = false)
    (h2 : q.data.isPrefixOf p.data = false) :
    pyStartsWith t q = false := by
  cases hq : pyStartsWith t q
  · rfl
  · exfalso
    have hp' := (pyStartsWith_iff t p).mp hp
    have hq' := (pyStartsWith_iff t q).mp hq
    rcases List.prefix_or_prefix_of_prefix hp' hq' with h | h
    · rw [List.isPrefixOf_iff_prefix.mpr h] at h1
      exact absurd h1 (by simp)
    · rw [List.isPrefixOf_iff_prefix.mpr h] at h2
      exact absurd h2 (by simp)

/-- C4: a normalized line beginning with one of the eight heading markers is
classified as the corresponding heading, with the marker removed and the
remainder trimmed.  (The eight markers are pairwise incomparable, so at most
one matches and the first-match order is respected.) -/
theorem heading_classification (rules : RuleTable) (line : String)
    (st pre : String) (hm : (st, pre) ∈ headingPairs)
    (hp : pyStartsWith (normalizeLine line) pre = true) :
    classifyLine rules line =
      (st, ⟨stripL ((normalizeLine line).data.drop pre.data.length)⟩) := by
  show classifyCore rules (normalizeLine line) = _
  generalize normalizeLine line = t at hp ⊢
  have mutex := pyStartsWith_false_of_incomp t pre
  simp only [headingPairs, List.mem_cons, List.not_mem_nil, or_false,
    Prod.mk.injEq] at hm
  rcases hm with ⟨rfl, rfl⟩ | ⟨rfl, rfl⟩ | ⟨rfl, rfl⟩ | ⟨rfl, rfl⟩ |
    hm5 | hm6 | hm7 | hm8
  · simp [classifyCore, firstHit, headingMarkers, List.find?, hp]
  · have f1 := mutex "H1:" hp (by decide) (by decide)
    simp [classifyCore, firstHit, headingMarkers, List.find?, hp, f1]
  · have f1 := mutex "H1:" hp (by decide) (by decide)
    have f2 := mutex "# " hp (by decide) (by decide)
    simp [classifyCore, firstHit, headingMarkers, List.find?, hp, f1, f2]
  · have f1 := mutex "H1:" hp (by decide) (by decide)
    have f2 := mutex "# " hp (by decide) (by decide)
    have f3 := mutex "H2:" hp (by decide) (by decide)
    simp [classifyCore, firstHit, headingMarkers, List.find?, hp, f1, f2, f3]
  · obtain ⟨rfl, rfl⟩ := hm5
    have f1 := mutex "H1:" hp (by decide) (by decide)
    have f2 := mutex "# " hp (by decide) (by decide)
    have f3 := mutex "H2:" hp (by decide) (by decide)
    have f4 := mutex "## " hp (by decide) (by decide)
    simp [classifyCore, firstHit, headingMarkers, List.find?, hp, f1, f2, f3, f4]
  · obtain ⟨rfl, rfl⟩ := hm6
    have f1 := mutex "H1:" hp (by decide) (by decide)
    have f2 := mutex "# " hp (by decide) (by decide)
    have f3 := mutex "H2:" hp (by decide) (by decide)
    have f4 := mutex "## " hp (by decide) (by decide)
    have f5 := mutex "H3:" hp (by decide) (by decide)
    simp [classifyCore, firstHit, headingMarkers, List.find?, hp, f1, f2, f3, f4,
      f5]
  · obtain ⟨rfl, rfl⟩ := hm7
    have f1 := mutex "H1:" hp (by decide) (by decide)
    have f2 := mutex "# " hp (by decide) (by decide)
    have f3 := mutex "H2:" hp (by decide) (by decide)
    have f4 := mutex "## " hp (by decide) (by decide)
    have f5 := mutex "H3:" hp (by decide) (by decide)
    have f6 := mutex "### " hp (by decide) (by decide)
    simp [classifyCore, firstHit, headingMarkers, List.find?, hp, f1, f2, f3, f4,
      f5, f6]
  · obtain ⟨rfl, rfl⟩ := hm8
    have f1 := mutex "H1:" hp (by decide) (by decide)
    have f2 := mutex "# " hp (by decide) (by decide)
    have f3 := mutex "H2:" hp (by decide) (by decide)
    have f4 := mutex "## " hp (by decide) (by decide)
    have f5 := mutex "H3:" hp (by decide) (by decide)
    have f6 := mutex "### " hp (by decide) (by decide)
    have f7 := mutex "H4:" hp (by decide) (by decide)
    simp [classifyCore, firstHit, headingMarkers, List.find?, hp, f1, f2, f3, f4,
      f5, f6, f7]

/-- C4 witness: heading classification at the concrete line `"## Sec "`. -/
theorem heading_classification_witness :
    ("Heading 2", "## ") ∈ headingPairs ∧
    pyStartsWith (normalizeLine "## Sec ") "## " = true ∧
    classifyLine [] "## Sec " =
      ("Heading 2", ⟨stripL ((normalizeLine "## Sec ").data.drop "## ".data.length)⟩) :=
  ⟨by decide, by decide,
   heading_classification [] "## Sec " "Heading 2" "## " (by decide) (by decide)⟩

/-- The numbered branch of the classifier core. -/
theorem classifyCore_numbered (rules : RuleTable) (t : String) (n : Nat)
    (hh : firstHit t headingMarkers = none)
    (hn : numberedLen t.data = some n) :
    classifyCore rules t = ("Normal", ⟨stripL (t.data.drop n)⟩) := by
  simp [classifyCore, hh, hn]

/-- The claim's space-only numbered pattern implies the code's
whitespace-liberal pattern, with the same match length. -/
theorem claimNumberedSpace_imp (cs : List Char) (n : Nat)
    (h : claimNumberedSpace cs = some n) : numberedLen cs = some n := by
  unfold claimNumberedSpace at h
  unfold numberedLen
  by_cases hd : 0 < (cs.takeWhile Char.isDigit).length
  · simp only [if_pos hd] at h ⊢
    rcases hcs : cs.drop (cs.takeWhile Char.isDigit).length with _ | ⟨p, rest⟩ <;>
      rw [hcs] at h
    · exact Option.noConfusion h
    · rcases rest with _ | ⟨w, rest2⟩
      · exact Option.noConfusion h
      · have h' : (if ((p == '.' || p == ')') && w == ' ') = true
            then some ((cs.takeWhile Char.isDigit).length + 2) else none) =
              some n := h
        show (if ((p == '.' || p == ')') && isPySpace w) = true
            then some ((cs.takeWhile Char.isDigit).length + 2) else none) =
              some n
        by_cases hcond : ((p == '.' || p == ')') && (w == ' ')) = true
        · rw [if_pos hcond] at h'
          have hw : w = ' ' := by
            have := (Bool.and_eq_true _ _).mp hcond
            exact beq_iff_eq.mp this.2
          have hws : isPySpace w = true := by rw [hw]; decide
          have hpp : (p == '.' || p == ')') = true :=
            ((Bool.and_eq_true _ _).mp hcond).1
          rw [if_pos (by rw [hpp, hws]; rfl)]
          exact h'
        · rw [if_neg hcond] at h'
          cases h'
  · simp only [if_neg hd] at h ⊢
    rcases cs with _ | ⟨a, _ | ⟨p, _ | ⟨w, rest2⟩⟩⟩
    · exact Option.noConfusion h
    · exact Option.noConfusion h
    · exact Option.noConfusion h
    · have h' : (if (a.isAlpha && ((p == '.' || p == ')') && w == ' ')) = true
          then some 3 else none) = some n := h
      show (if (a.isAlpha && ((p == '.' || p == ')') && isPySpace w)) = true
          then some 3 else none) = some n
      by_cases hcond : (a.isAlpha && ((p == '.' || p == ')') && (w == ' '))) = true
      · rw [if_pos hcond] at h'
        have h1 := (Bool.and_eq_true _ _).mp hcond
        have h2 := (Bool.and_eq_true _ _).mp h1.2
        have hw : w = ' ' := beq_iff_eq.mp h2.2
        have hws : isPySpace w = true := by rw [hw]; decide
        rw [if_pos (by rw [h1.1, h2.1, hws]; rfl)]
        exact h'
      · rw [if_neg hcond] at h'
        cases h'

/-- C5: a normalized line that matched no heading rule and matches the
numbered-list pattern (digits or a single letter, then `.` or `)`, then a
space) is classified `"Normal"` with the numbering token removed and the
remainder trimmed. -/
theorem numbered_classification (rules : RuleTable) (line : String) (n : Nat)
    (hh : firstHit (normalizeLine line) headingMarkers = none)
    (hn : claimNumberedSpace (normalizeLine line).data = some n) :
    classifyLine rules line =
      ("Normal", ⟨stripL ((normalizeLine line).data.drop n)⟩) :=
  classifyCore_numbered rules (normalizeLine line) n hh
    (claimNumberedSpace_imp _ n hn)

/-- C5 witness: numbered-list classification at `"1. first item"`. -/
theorem numbered_classification_witness :
    firstHit (normalizeLine "1. first item") headingMarkers = none ∧
    claimNumberedSpace (normalizeLine "1. first item").data = some 3 ∧
    classifyLine [] "1. first item" =
      ("Normal", ⟨stripL ((normalizeLine "1. first item").data.drop 3)⟩) :=
  ⟨by decide, by decide,
   numbered_classification [] "1. first item" 3 (by decide) (by decide)⟩

/-- A text matching a bullet marker has at least two characters. -/
theorem bulletHit_length (t : String) (hb : bulletHit t = true) :
    2 ≤ t.data.length := by
  unfold bulletHit at hb
  simp only [List.any_cons, List.any_nil, Bool.or_false, Bool.or_eq_true] at hb
  rcases hb with h | h | h <;>
    exact le_trans (by decide) ((pyStartsWith_iff t _).mp h).length_le

/-- C6: a normalized line that matched no heading or numbered rule and
begins with `"- "`, `"* "` or `"• "` is classified with the first two
characters stripped and the remainder trimmed, under style
`"Normal Bullet"` when that key is in the rule table and
`"List Paragraph Bullet Points"` otherwise. -/
theorem bullet_classification (rules : RuleTable) (line : String)
    (hh : firstHit (normalizeLine line) headingMarkers = none)
    (hn : numberedLen (normalizeLine line).data = none)
    (hb : bulletHit (normalizeLine line) = true) :
    classifyLine rules line =
      ((if hasKey rules "Normal Bullet" then "Normal Bullet"
        else "List Paragraph Bullet Points"),
       ⟨stripL ((normalizeLine line).data.drop 2)⟩) := by
  have hlen := bulletHit_length _ hb
  have hlen2 : ¬ (normalizeLine line).length < 2 := Nat.not_lt.mpr hlen
  simp [classifyLine, classifyCore, hh, hn, hb, bulletStyleName, hlen, hlen2]

/-- C6 witness: bullet classification at `"- point one"` with a rule table
not containing `"Normal Bullet"`. -/
theorem bullet_classification_witness :
    firstHit (normalizeLine "- point one") headingMarkers = none ∧
    numberedLen (normalizeLine "- point one").data = none ∧
    bulletHit (normalizeLine "- point one") = true ∧
    classifyLine [] "- point one" =
      ((if hasKey [] "Normal Bullet" then "Normal Bullet"
        else "List Paragraph Bullet Points"),
       ⟨stripL ((normalizeLine "- point one").data.drop 2)⟩) :=
  ⟨by decide, by decide, by decide,
   bullet_classification [] "- point one" (by decide) (by decide) (by decide)⟩

/-- No heading marker matches a text whose first character is a digit
(every marker starts with `H` or `#`). -/
theorem firstHit_none_of_digit_head (t : String) (d : Char) (tl : List Char)
    (ht : t.data = d :: tl) (hd : d.isDigit = true) :
    firstHit t headingMarkers = none := by
  have hne : ∀ c : Char, c.isDigit = false → (c == d) = false := by
    intro c hc
    refine beq_eq_false_iff_ne.mpr ?_
    intro hcd
    rw [hcd, hd] at hc
    cases hc
  have hH := hne 'H' (by decide)
  have hHash := hne '#' (by decide)
  have key : ∀ (q : String) (c : Char) (qs : List Char),
      q.data = c :: qs → (c == d) = false → pyStartsWith t q = false := by
    intro q c qs hq hcne
    unfold pyStartsWith
    rw [ht, hq]
    simp [List.isPrefixOf, hcne]
  have f1 := key "H1:" 'H' _ rfl hH
  have f2 := key "# " '#' _ rfl hHash
  have f3 := key "H2:" 'H' _ rfl hH
  have f4 := key "## " '#' _ rfl hHash
  have f5 := key "H3:" 'H' _ rfl hH
  have f6 := key "### " '#' _ rfl hHash
  have f7 := key "H4:" 'H' _ rfl hH
  have f8 := key "#### " '#' _ rfl hHash
  simp [firstHit, headingMarkers, List.find?, f1, f2, f3, f4, f5, f6, f7, f8]

/-- `takeWhile` over an all-satisfying block followed by a failing element. -/
theorem takeWhile_all_block (p : Char → Bool) (xs : List Char)
    (hall : xs.all p = true) (y : Char) (hy : p y = false) (zs : List Char) :
    (xs ++ y :: zs).takeWhile p = xs := by
  induction xs with
  | nil => simp [List.takeWhile_cons, hy]
  | cons a as ih =>
    simp only [List.all_cons, Bool.and_eq_true] at hall
    simp [List.takeWhile_cons, hall.1, ih hall.2]

/-- C10: the numbered-list detector accepts any single whitespace character
after the digit-run-plus-punctuation token, not only a space: a normalized
line of shape digits, then `.` or `)`, then any whitespace character, is
classified `"Normal"` with the whole token — that whitespace character
included — removed and the remainder trimmed. -/
theorem numbered_accepts_any_whitespace (rules : RuleTable) (line : String)
    (d : Char) (ds : List Char) (p c : Char) (rest : List Char)
    (hdigits : (d :: ds).all Char.isDigit = true)
    (hp : p = '.' ∨ p = ')') (hc : isPySpace c = true)
    (ht : (normalizeLine line).data = (d :: ds) ++ p :: c :: rest) :
    classifyLine rules line = ("Normal", ⟨stripL rest⟩) := by
  have hd : d.isDigit = true := by
    simp only [List.all_cons, Bool.and_eq_true] at hdigits
    exact hdigits.1
  have hpd : p.isDigit = false := by rcases hp with rfl | rfl <;> decide
  have hh : firstHit (normalizeLine line) headingMarkers = none :=
    firstHit_none_of_digit_head _ d _ ht hd
  have htw : (normalizeLine line).data.takeWhile Char.isDigit = d :: ds := by
    rw [ht]
    exact takeWhile_all_block _ _ hdigits _ hpd _
  have hdrop : (normalizeLine line).data.drop (d :: ds).length = p :: c :: rest := by
    rw [ht]
    exact List.drop_left _ _
  have hpp : (p == '.' || p == ')') = true := by
    rcases hp with rfl | rfl <;> decide
  have hn : numberedLen (normalizeLine line).data = some ((d :: ds).length + 2) := by
    unfold numberedLen
    simp only [htw]
    rw [if_pos (by simp), hdrop]
    show (if ((p == '.' || p == ')') && isPySpace c) = true
        then some ((d :: ds).length + 2) else none) = some ((d :: ds).length + 2)
    rw [hpp, hc]
    rfl
  have hfinal := classifyCore_numbered rules (normalizeLine line) _ hh hn
  rw [show classifyLine rules line = classifyCore rules (normalizeLine line) from rfl,
    hfinal]
  have hdrop2 : (normalizeLine line).data.drop ((d :: ds).length + 2) = rest := by
    rw [ht, show (d :: ds) ++ p :: c :: rest = ((d :: ds) ++ [p, c]) ++ rest by simp]
    exact List.drop_left' (by simp)
  rw [hdrop2]

/-- C10 witness: a tab after `"1."` is accepted at the concrete line
`"1.\tx"`. -/
theorem numbered_accepts_any_whitespace_witness :
    isPySpace '\t' = true ∧
    (normalizeLine "1.\tx").data = ('1' :: []) ++ '.' :: '\t' :: ['x'] ∧
    classifyLine [] "1.\tx" = ("Normal", ⟨stripL ['x']⟩) :=
  ⟨by decide, by decide,
   numbered_accepts_any_whitespace [] "1.\tx" '1' [] '.' '\t' ['x']
     (by decide) (Or.inl rfl) (by decide) (by decide)⟩

/-- Evaluating a block of heading rules in the chain equals the inner
marker scan. -/
theorem runChain_markers (rules : RuleTable) (t : String) (tail : List ChainRule)
    (st : String) (ps : List String) :
    runChain rules t (ps.map (headingRule st) ++ tail) =
      (match ps.find? (fun p => pyStartsWith t p) with
       | some p => (st, ⟨stripL (t.data.drop p.data.length)⟩)
       | none => runChain rules t tail) := by
  induction ps with
  | nil => simp [List.find?]
  | cons p ps ih =>
    simp only [List.map_cons, List.cons_append, runChain, List.find?]
    cases hp : pyStartsWith t p
    · simp [headingRule, hp, ih]
    · simp [headingRule, hp]

/-- Evaluating the flattened heading block of the chain equals the nested
heading loop `firstHit`. -/
theorem runChain_firstHit (rules : RuleTable) (t : String) (tail : List ChainRule) :
    ∀ ms : List (String × List String),
      runChain rules t (ms.flatMap (fun m => m.2.map (headingRule m.1)) ++ tail) =
        (match firstHit t ms with
         | some r => r
         | none => runChain rules t tail) := by
  intro ms
  induction ms with
  | nil => simp [firstHit]
  | cons m rest ih =>
    rcases m with ⟨st, ps⟩
    rw [List.flatMap_cons, List.append_assoc, runChain_markers]
    unfold firstHit
    cases ps.find? (fun p => pyStartsWith t p)
    · exact ih
    · rfl

/-- The classifier core computes exactly the first-match-wins evaluation of
the spec's ordered rule chain. -/
theorem classifyCore_eq_runChain (rules : RuleTable) (t : String) :
    classifyCore rules t = runChain rules t specChain := by
  have hsc : specChain =
      headingMarkers.flatMap (fun m => m.2.map (headingRule m.1)) ++
        [numberedRule, bulletRule] := by
    simp [specChain, headingMarkers, List.flatMap_cons]
  rw [hsc, runChain_firstHit]
  unfold classifyCore
  cases firstHit t headingMarkers
  · show (match numberedLen t.data with
        | some n => ("Normal", (⟨stripL (t.data.drop n)⟩ : String))
        | none => _) = _
    cases hn : numberedLen t.data
    · simp [runChain, numberedRule, bulletRule, hn]
    · simp [runChain, numberedRule, hn]
  · rfl

/-- All chain tests failing means the chain evaluates to the default. -/
theorem runChain_default (rules : RuleTable) (t : String)
    (chain : List ChainRule) (h : ∀ r ∈ chain, r.test t = false) :
    runChain rules t chain = ("Normal", t) := by
  induction chain with
  | nil => rfl
  | cons r rest ih =>
    simp only [runChain, h r (List.mem_cons_self r rest), Bool.false_eq_true,
      if_false]
    exact ih (fun r' hr' => h r' (List.mem_cons_of_mem _ hr'))

/-- C1: classification is exactly the first-match-wins evaluation of the
spec's ordered rule chain (heading tag/hash markers for levels 1-4, then
numbered lists, then bullets) over the normalized line, and a line matching
no rule is classified `"Normal"` with its normalized text unchanged.  Both
sides are total functions, so classification never fails. -/
theorem classification_first_match_wins (rules : RuleTable) (line : String) :
    classifyLine rules line = specClassify rules line ∧
    ((specChain.all fun r => ! r.test (normalizeLine line)) = true →
      classifyLine rules line = ("Normal", normalizeLine line)) := by
  have hmain : classifyLine rules line = specClassify rules line :=
    classifyCore_eq_runChain rules (normalizeLine line)
  refine ⟨hmain, fun h => ?_⟩
  rw [hmain]
  apply runChain_default
  intro r hr
  have := List.all_eq_true.mp h r hr
  simpa using this

/-- C1 witness: the default branch at the concrete unmatched line
`"plain text\n"` (no rule tests true, style `"Normal"`, text normalized but
otherwise unchanged). -/
theorem classification_first_match_wins_witness :
    (specChain.all fun r => ! r.test (normalizeLine "plain text\n")) = true ∧
    classifyLine [] "plain text\n" = ("Normal", normalizeLine "plain text\n") :=
  ⟨by decide, (classification_first_match_wins [] "plain text\n").2 (by decide)⟩

/-! ## Builder and styler lemmas -/

/-- Incrementing a counter key adds one to its value and leaves every other
key's value unchanged. -/
theorem counterGet_inc (cs : Counters) (k s : String) :
    counterGet (counterInc cs k) s =
      counterGet cs s + (if k == s then 1 else 0) := by
  induction cs with
  | nil =>
    simp only [counterInc, counterGet]
    by_cases h : k == s
    · simp [h]
    · simp [h]
  | cons hd tl ih =>
    rcases hd with ⟨k', v⟩
    simp only [counterInc, counterGet]
    by_cases h1 : k' == k
    · have hk : k' = k := beq_iff_eq.mp h1
      subst hk
      simp only [if_pos h1, counterGet]
      by_cases h2 : k' == s
      · simp [h2]
      · simp [h2]
    · simp only [if_neg h1, counterGet]
      by_cases h2 : k' == s
      · have hk : k' = s := beq_iff_eq.mp h2
        subst hk
        have h3 : (k == k') = false := by
          cases hx : k == k'
          · rfl
          · exact absurd (beq_iff_eq.mpr (beq_iff_eq.mp hx).symm) h1
        simp [h2, h3]
      · simp [h2, ih]

/-- Incrementing a counter increases the total by one. -/
theorem countersTotal_inc (cs : Counters) (k : String) :
    countersTotal (counterInc cs k) = countersTotal cs + 1 := by
  induction cs with
  | nil => simp [counterInc, countersTotal]
  | cons hd tl ih =>
    rcases hd with ⟨k', v⟩
    simp only [counterInc]
    by_cases h : k' == k
    · simp only [if_pos h, countersTotal, List.map_cons, List.sum_cons]
      omega
    · simp only [if_neg h, countersTotal, List.map_cons, List.sum_cons]
      simp only [countersTotal] at ih
      omega

/-- A rule table all of whose records have resolvable colors yields a
resolvable record for every style lookup. -/
theorem lookupRule_colorOk (rules : RuleTable) (s : String)
    (h : rulesOk rules = true) : specColorOk (lookupRule rules s) = true := by
  induction rules with
  | nil => rfl
  | cons kv rest ih =>
    simp only [rulesOk, List.all_cons, Bool.and_eq_true] at h
    simp only [lookupRule]
    by_cases hk : kv.1 == s
    · rcases kv with ⟨k, v⟩
      simp [hk, h.1]
    · rcases kv with ⟨k, v⟩
      simp only [hk, Bool.false_eq_true, if_false]
      exact ih (by simp [rulesOk, h.2])

/-- `mapM` over a function that succeeds on every element succeeds. -/
theorem mapM_isSome {α β : Type} (f : α → Option β) (l : List α)
    (h : ∀ a ∈ l, (f a).isSome = true) : (l.mapM f).isSome = true := by
  induction l with
  | nil => rfl
  | cons a as ih =>
    rw [List.mapM_cons]
    have h1 : (f a).isSome = true := h a (List.mem_cons_self a as)
    have h2 := ih (fun a' ha' => h a' (List.mem_cons_of_mem _ ha'))
    rcases hfa : f a with _ | b
    · simp [hfa] at h1
    · rcases hrest : as.mapM f with _ | bs
      · have hrest' : List.mapM.loop f as [] = none := hrest
        simp [hrest'] at h2
      · simp [hfa, hrest]

/-- A record with a resolvable color is applied without raising. -/
theorem applyParagraphStyle_isSome (p : Paragraph) (spec : StyleSpec)
    (h : specColorOk spec = true) :
    (applyParagraphStyle p spec).isSome = true := by
  unfold applyParagraphStyle
  have hruns : ((runsOrNew p).mapM (applyRunStyle spec)).isSome = true := by
    apply mapM_isSome
    intro r _
    unfold applyRunStyle
    unfold specColorOk at h
    rcases hc : spec.color with _ | c
    · simp
    · rw [hc] at h
      have h' : (rgb c).isSome = true := h
      rcases hr : rgb c with _ | t
      · simp [hr] at h'
      · simp [hr]
  rw [Option.isSome_map']
  exact hruns

/-- Every line of a request over an exception-free rule table produces its
styled paragraph. -/
theorem styleLinePara_isSome (rules : RuleTable) (line : String)
    (h : rulesOk rules = true) : (styleLinePara rules line).isSome = true :=
  applyParagraphStyle_isSome _ _ (lookupRule_colorOk rules _ h)

/-- The `format_doc` loop invariant: from any starting state, the loop over
an exception-free rule table succeeds, appends exactly the in-order styled
paragraphs of the lines, and adds one count per line to the counter of the
line's resolved style. -/
theorem buildLoop_props (rules : RuleTable) (h : rulesOk rules = true) :
    ∀ (lines : List String) (doc0 : List Paragraph) (cnt0 : Counters),
      ∃ ps cnt,
        List.mapM (styleLinePara rules) lines = some ps ∧
        buildLoop rules (doc0, cnt0) lines = some (doc0 ++ ps, cnt) ∧
        ps.length = lines.length ∧
        countersTotal cnt = countersTotal cnt0 + lines.length ∧
        ∀ s, counterGet cnt s =
          counterGet cnt0 s +
            lines.countP (fun l => (classifyLine rules l).1 == s) := by
  intro lines
  induction lines with
  | nil =>
    intro doc0 cnt0
    exact ⟨[], cnt0, rfl, by simp [buildLoop], rfl, by simp, fun s => by simp⟩
  | cons l ls ih =>
    intro doc0 cnt0
    rcases Option.isSome_iff_exists.mp (styleLinePara_isSome rules l h) with ⟨p, hp⟩
    rcases ih (doc0 ++ [p]) (counterInc cnt0 (classifyLine rules l).1) with
      ⟨ps, cnt, h1, h2, h3, h4, h5⟩
    refine ⟨p :: ps, cnt, ?_, ?_, ?_, ?_, ?_⟩
    · rw [List.mapM_cons, hp, h1]
      rfl
    · simp only [buildLoop, stepLine, hp]
      rw [h2, List.append_assoc]
      rfl
    · simp [h3]
    · rw [h4, countersTotal_inc]
      simp
      omega
    · intro s
      rw [h5 s, counterGet_inc, List.countP_cons]
      omega

/-- C3: over a rule table whose colors all resolve (the built-in default
table qualifies; the condition excludes only tables that trip the color
resolver's exception defect), the Document Builder emits exactly one styled
output paragraph per input line, in input order (`mapM` succeeds and returns
the in-order styled paragraph of each line — no reordering, merging or
splitting), the usage-counter values sum to the number of input lines and
partition them exactly by resolved style name, and empty input yields zero
paragraphs and an empty counter mapping. -/
theorem builder_one_paragraph_per_line (rules : RuleTable) (lines : List String)
    (h : rulesOk rules = true) :
    ∃ doc cnt,
      buildDoc rules lines = some (doc, cnt) ∧
      List.mapM (styleLinePara rules) lines = some doc ∧
      doc.length = lines.length ∧
      countersTotal cnt = lines.length ∧
      (∀ s, counterGet cnt s =
        lines.countP (fun l => (classifyLine rules l).1 == s)) ∧
      buildDoc rules [] = some ([], []) := by
  rcases buildLoop_props rules h lines [] [] with ⟨ps, cnt, h1, h2, h3, h4, h5⟩
  refine ⟨ps, cnt, ?_, h1, h3, ?_, ?_, rfl⟩
  · show buildDoc rules lines = some (ps, cnt)
    unfold buildDoc
    simpa using h2
  · simpa [countersTotal] using h4
  · intro s
    simpa [counterGet] using h5 s

/-- C3 witness: the builder invariants at the default style map and the
spec's four-line end-to-end example. -/
theorem builder_one_paragraph_per_line_witness :
    rulesOk defaultStyleMap = true ∧
    (∃ doc cnt,
      buildDoc defaultStyleMap
          ["# Title", "Intro text.", "- point one", "1. first item"] =
        some (doc, cnt) ∧
      List.mapM (styleLinePara defaultStyleMap)
          ["# Title", "Intro text.", "- point one", "1. first item"] =
        some doc ∧
      doc.length =
        (["# Title", "Intro text.", "- point one", "1. first item"] :
          List String).length ∧
      countersTotal cnt =
        (["# Title", "Intro text.", "- point one", "1. first item"] :
          List String).length ∧
      (∀ s, counterGet cnt s =
        (["# Title", "Intro text.", "- point one", "1. first item"] :
          List String).countP
            (fun l => (classifyLine defaultStyleMap l).1 == s)) ∧
      buildDoc defaultStyleMap [] = some ([], [])) :=
  ⟨by decide,
   builder_one_paragraph_per_line defaultStyleMap
     ["# Title", "Intro text.", "- point one", "1. first item"] (by decide)⟩

/-- Every element of a successful `mapM` image comes from some source
element. -/
theorem mapM_mem {α β : Type} (f : α → Option β) (l : List α) (l' : List β)
    (h : l.mapM f = some l') : ∀ b ∈ l', ∃ a ∈ l, f a = some b := by
  induction l generalizing l' with
  | nil =>
    simp only [List.mapM_nil, pure, Option.some.injEq] at h
    subst h
    intro b hb
    cases hb
  | cons a as ih =>
    rw [List.mapM_cons] at h
    rcases hfa : f a with _ | b0 <;> rw [hfa] at h
    · simp at h
    · rcases hrest : as.mapM f with _ | bs <;> rw [hrest] at h
      · simp at h
      · have h' : b0 :: bs = l' := by simpa using h
        subst h'
        intro b hb
        rcases List.mem_cons.mp hb with rfl | hb'
        · exact ⟨a, List.mem_cons_self a as, hfa⟩
        · rcases ih bs hrest b hb' with ⟨a', ha', hfa'⟩
          exact ⟨a', List.mem_cons_of_mem _ ha', hfa'⟩

/-- A successful `mapM` image projects like a plain map when the function
commutes with the projection. -/
theorem mapM_map_eq {α β γ : Type} (f : α → Option β) (g : β → γ) (g' : α → γ)
    (l : List α) (l' : List β) (h : l.mapM f = some l')
    (hfg : ∀ a b, f a = some b → g b = g' a) : l'.map g = l.map g' := by
  induction l generalizing l' with
  | nil =>
    simp only [List.mapM_nil, pure, Option.some.injEq] at h
    subst h
    rfl
  | cons a as ih =>
    rw [List.mapM_cons] at h
    rcases hfa : f a with _ | b0 <;> rw [hfa] at h
    · simp at h
    · rcases hrest : as.mapM f with _ | bs <;> rw [hrest] at h
      · simp at h
      · have h' : b0 :: bs = l' := by simpa using h
        subst h'
        simp only [List.map_cons, hfg a b0 hfa, ih bs hrest]

/-- A successful run-style application is `styledRun` at some resolved
color. -/
theorem applyRunStyle_eq (spec : StyleSpec) (r r' : Run)
    (h : applyRunStyle spec r = some r') : ∃ col, r' = styledRun spec r col := by
  unfold applyRunStyle at h
  rcases hc : spec.color with _ | c <;> rw [hc] at h
  · have h' : some (styledRun spec r none) = some r' := h
    exact ⟨none, (Option.some_inj.mp h').symm⟩
  · have h' : (rgb c).map (fun t => styledRun spec r (some t)) = some r' := h
    rcases hr : rgb c with _ | t <;> rw [hr] at h'
    · simp at h'
    · simp only [Option.map_some'] at h'
      exact ⟨some t, (Option.some_inj.mp h').symm⟩

/-- The Paragraph Styler never reads the pass-through metadata fields or
unrecognized keys. -/
theorem applyParagraphStyle_eraseMeta (p : Paragraph) (spec : StyleSpec) :
    applyParagraphStyle p (eraseMeta spec) = applyParagraphStyle p spec := rfl

/-- C9 counterexample: the Paragraph Styler rejects (raises on) a record
whose color expression is a 7-character `#` string with non-hex content,
refuting the claim's "without the record ever being rejected". -/
theorem styler_rejects_record :
    applyParagraphStyle (newParagraph "x") { color := some "#QQQQQQ" } =
      none := by decide

/-- C9 (amended): the Paragraph Styler sets each paragraph/run attribute
only if the corresponding field is present in the record (absent fields
leave the attribute untouched), stores the hanging indent as the negation
of the supplied `indent_hanging_cm` (converted to EMU), only ever sets —
never clears — keep-with-next and keep-lines-together and only when truthy,
ignores unknown attribute keys and unrecognized alignment strings, and
rejects a record only when its color expression makes the Color Resolver
raise (any record whose color resolves is applied successfully). -/
theorem styler_frame_conditions (p : Paragraph) (spec : StyleSpec) :
    (specColorOk spec = true → ∃ p', applyParagraphStyle p spec = some p') ∧
    (∀ p', applyParagraphStyle p spec = some p' →
      (spec.alignment = none → p'.alignment = p.alignment) ∧
      (∀ a, spec.alignment = some a → alignMap a = none →
        p'.alignment = p.alignment) ∧
      (spec.line_spacing = none → p'.line_spacing = p.line_spacing) ∧
      (∀ v, spec.line_spacing = some v → p'.line_spacing = some v) ∧
      (spec.spacing_before_pt = none → p'.space_before = p.space_before) ∧
      (spec.spacing_after_pt = none → p'.space_after = p.space_after) ∧
      (spec.indent_left_cm = none → p'.left_indent = p.left_indent) ∧
      (spec.indent_hanging_cm = none →
        p'.first_line_indent = p.first_line_indent) ∧
      (∀ v, spec.indent_hanging_cm = some v →
        p'.first_line_indent = some (-(Cm v))) ∧
      (spec.keep_with_next ≠ some true →
        p'.keep_with_next = p.keep_with_next) ∧
      (spec.keep_with_next = some true → p'.keep_with_next = some true) ∧
      (spec.keep_lines_together ≠ some true →
        p'.keep_together = p.keep_together) ∧
      (spec.keep_lines_together = some true → p'.keep_together = some true) ∧
      (spec.bold = none →
        p'.runs.map Run.bold = (runsOrNew p).map Run.bold) ∧
      (∀ b, spec.bold = some b → ∀ r ∈ p'.runs, r.bold = some b) ∧
      applyParagraphStyle p (eraseMeta spec) = some p') := by
  constructor
  · intro hok
    exact Option.isSome_iff_exists.mp (applyParagraphStyle_isSome p spec hok)
  · intro p' h
    have h0 := h
    unfold applyParagraphStyle at h
    rcases Option.map_eq_some'.mp h with ⟨rs, hrs, hp'⟩
    subst hp'
    and_intros
    · intro hx; simp [styledPara, hx]
    · intro a hx hy; simp [styledPara, hx, hy]
    · intro hx; simp [styledPara, hx]
    · intro v hx; simp [styledPara, hx]
    · intro hx; simp [styledPara, hx]
    · intro hx; simp [styledPara, hx]
    · intro hx; simp [styledPara, hx]
    · intro hx; simp [styledPara, hx]
    · intro v hx; simp [styledPara, hx]
    · intro hx
      show (match spec.keep_with_next with
        | some true => some true | _ => p.keep_with_next) = p.keep_with_next
      rcases hk : spec.keep_with_next with _ | b
      · rfl
      · cases b
        · rfl
        · exact absurd hk hx
    · intro hx; simp [styledPara, hx]
    · intro hx
      show (match spec.keep_lines_together with
        | some true => some true | _ => p.keep_together) = p.keep_together
      rcases hk : spec.keep_lines_together with _ | b
      · rfl
      · cases b
        · rfl
        · exact absurd hk hx
    · intro hx; simp [styledPara, hx]
    · intro hx
      show rs.map Run.bold = (runsOrNew p).map Run.bold
      refine mapM_map_eq _ _ _ _ _ hrs ?_
      intro r r' hr
      rcases applyRunStyle_eq spec r r' hr with ⟨col, rfl⟩
      simp [styledRun, hx]
    · intro b hx r hr
      have hr' : r ∈ rs := hr
      rcases mapM_mem _ _ _ hrs r hr' with ⟨r0, _, hr0⟩
      rcases applyRunStyle_eq spec r0 r hr0 with ⟨col, rfl⟩
      simp [styledRun, hx]
    · rw [applyParagraphStyle_eraseMeta]
      exact h0

/-- C9 witness: the styler theorem instantiated at a concrete paragraph and
record — the record applies successfully and any successful application
stores the hanging indent as `-Cm 1` and sets keep-with-next. -/
theorem styler_frame_conditions_witness :
    specColorOk sampleSpec = true ∧
    (∃ p', applyParagraphStyle (newParagraph "t") sampleSpec = some p') ∧
    (∀ p', applyParagraphStyle (newParagraph "t") sampleSpec = some p' →
      p'.first_line_indent = some (-(Cm 1)) ∧
      p'.keep_with_next = some true) := by
  refine ⟨by decide,
    (styler_frame_conditions (newParagraph "t") sampleSpec).1 (by decide),
    fun p' h => ?_⟩
  have hc := (styler_frame_conditions (newParagraph "t") sampleSpec).2 p' h
  exact ⟨hc.2.2.2.2.2.2.2.2.1 1 rfl, hc.2.2.2.2.2.2.2.2.2.2.1 rfl⟩

end WorkDocStyler
